import Mathlib

/-!
Verification development for the catalog module (objcat.py): a tree of
catalog nodes with cycle-guarded reparenting, multi-valued provenance-keyed
fields, interned sources, and memoized derived values.

Python exceptions are modelled by the PyErr type below (one constructor per
exception class raised by the module).  Mutating operations return a pair of
an optional raised error together with the state as it stands when the
operation returns or raises: Python mutations performed before a raise are
visible in the returned state, so a theorem stating that the returned state
equals the input state really does establish that no mutation happened.
-/

namespace Objcat

/-- Exception classes raised by the module (identified by class only). -/
inductive PyErr where
  | cycleError
  | valueError
  | typeError
  | keyError
  | indexError
  | attributeError
deriving DecidableEq, Repr

/-! ## Tree nodes (CatalogNode)

Nodes are identified by natural numbers.  The state stores, for every node,
its stored parent (the _parent slot) and its stored child list (the
_children slot). -/

structure TreeState where
  parent : Nat → Option Nat
  children : Nat → List Nat

/-- Models CatalogNode._cycleCheck (objcat.py lines 59-69), called on node
sf with the candidate child as source: raise CycleError if source is sf,
return normally once a parentless node is reached, otherwise recurse on the
parent.  The walk is fueled because the Python recursion need not terminate
on ill-formed states; the outer none means the fuel ran out, the inner
Option is the raised error (none meaning a normal return). -/
def cycleCheck (st : TreeState) (source : Nat) : Nat → Nat → Option (Option PyErr)
  | _, 0 => none
  | sf, fuel + 1 =>
    if source = sf then
      some (some PyErr.cycleError)
    else
      match st.parent sf with
      | none => some none
      | some p => cycleCheck st source p fuel

/-- The chain consisting of a node followed by its stored ancestors,
computed with fuel; some l means the walk terminated with chain l. -/
def chainUp (st : TreeState) : Nat → Nat → Option (List Nat)
  | 0, _ => none
  | fuel + 1, b =>
    match st.parent b with
    | none => some [b]
    | some p => (chainUp st fuel p).map (fun l => b :: l)

/-- Replace the stored child list of node n. -/
def setChildList (st : TreeState) (n : Nat) (l : List Nat) : TreeState :=
  { st with children := fun m => if m = n then l else st.children m }

/-- Replace the stored parent of node n. -/
def setParentSlot (st : TreeState) (n : Nat) (v : Option Nat) : TreeState :=
  { st with parent := fun m => if m = n then v else st.parent m }

/-- Models the tail of CatalogNode._setParent (objcat.py lines 79-81): if
the node a has a stored parent, remove the first occurrence of a from that
child list of that parent (Python list.remove, raising ValueError when absent),
then store val as the parent of a. -/
def setParentTail (st : TreeState) (a : Nat) (val : Option Nat) :
    Option PyErr × TreeState :=
  match st.parent a with
  | some p =>
    if a ∈ st.children p then
      (none, setParentSlot (setChildList st p ((st.children p).erase a)) a val)
    else
      (some PyErr.valueError, st)
  | none => (none, setParentSlot st a val)

/-- Models CatalogNode._setParent (objcat.py lines 73-81): when val is
non-null, first run the cycle check on val with a as the source (raising
CycleError before any mutation), then append a to the child list of val;
in all cases finish with setParentTail.  The outer none again means the
cycle-check fuel ran out. -/
def setParent (st : TreeState) (a : Nat) (val : Option Nat) (fuel : Nat) :
    Option (Option PyErr × TreeState) :=
  match val with
  | some b =>
    match cycleCheck st a b fuel with
    | none => none
    | some (some e) => some (some e, st)
    | some none =>
      some (setParentTail (setChildList st b (st.children b ++ [a])) a (some b))
  | none => some (setParentTail st a val)

/-- Symmetry invariant on parent/child links: a node with a stored parent
occurs exactly once in the child list of that parent, and every member of
any child list has the owner of that list as its stored parent. -/
def WFTree (st : TreeState) : Prop :=
  (∀ n p, st.parent n = some p → (st.children p).count n = 1) ∧
  (∀ p n, n ∈ st.children p → st.parent n = some p)

/-! ## Child reordering (CatalogNode.reorderChildren, index-sequence branch)

Models the else branch of reorderChildren (objcat.py lines 103-113): check
the length, then loop over the requested indices keeping a boolean array of
already-used indices (an out-of-range index raises IndexError from the
numpy array access, a repeated index raises ValueError) while building the
reordered list newl.  The source never assigns newl back to _children, so
on success the child list is returned unchanged. -/

/-- Python sequence indexing: non-negative indices from the front,
negative indices from the back, none when out of range. -/
def pyGet {α : Type} (l : List α) (i : Int) : Option α :=
  if 0 ≤ i then l.get? i.toNat
  else if (-i).toNat ≤ l.length then l.get? (l.length - (-i).toNat)
  else none

/-- Python sequence element assignment at an in-range index. -/
def pySet {α : Type} (l : List α) (i : Int) (a : α) : List α :=
  if 0 ≤ i then l.set i.toNat a
  else l.set (l.length - (-i).toNat) a

/-- The loop of the index-sequence branch: added is the boolean usage
array, newl the list being built (appended to and then discarded by the
caller, as in the source). -/
def reorderLoop {α : Type} (children : List α) :
    List Bool → List α → List Int → Option PyErr × List α
  | _, newl, [] => (none, newl)
  | added, newl, i :: rest =>
    match pyGet added i with
    | none => (some PyErr.indexError, newl)
    | some true => (some PyErr.valueError, newl)
    | some false =>
      match pyGet children i with
      | none => (some PyErr.indexError, newl)
      | some c => reorderLoop children (pySet added i true) (newl ++ [c]) rest

/-- Models reorderChildren on an index sequence: the returned child list is
the input child list in every case, because the computed newl is dropped. -/
def reorderChildrenSeq {α : Type} (children : List α) (neworder : List Int) :
    Option PyErr × List α :=
  if neworder.length ≠ children.length then (some PyErr.valueError, children)
  else
    let r := reorderLoop children (List.replicate children.length false) [] neworder
    (r.1, children)

/-! ## Tree traversal (CatalogNode.visit)

For the traversal claims the subtree below a node is what matters, so a
node is modelled as a rose tree of its children. -/

/-- A catalog subtree: a node together with its ordered children. -/
inductive CTree where
  | node : List CTree → CTree

mutual

/-- Models CatalogNode.nnodes (objcat.py lines 115-121): the sum of nnodes
over the children, started at one. -/
def CTree.nnodes : CTree → Nat
  | .node cs => nnodesSum cs + 1

/-- The summation over a child list used by nnodes. -/
def nnodesSum : List CTree → Nat
  | [] => 0
  | c :: rest => c.nnodes + nnodesSum rest

end

mutual

/-- Models the integer branch of CatalogNode.visit (objcat.py lines
133-142): iterate over the children with their index, emitting the result
for self when the index equals the traversal number, and emit the result
for self once more after the loop: the source initializes doroot to True
and the loop assigns the unrelated name doneroot, so doroot is still True
after the loop and the trailing append always runs. -/
def visitInt {α : Type} (f : CTree → α) (k : Int) : CTree → List α
  | .node cs => visitIntChildren f k (f (.node cs)) 0 cs ++ [f (.node cs)]

/-- The loop body of the integer branch: i is the enumeration index, r the
result of applying f to the node being visited. -/
def visitIntChildren {α : Type} (f : CTree → α) (k : Int) (r : α) :
    Nat → List CTree → List α
  | _, [] => []
  | i, c :: rest =>
    (if (i : Int) = k then [r] else []) ++ visitInt f k c ++
      visitIntChildren f k r (i + 1) rest

end

/-- Models visit with traversal preorder (objcat.py line 153): delegates to
the integer branch with 0. -/
def visitPre {α : Type} (f : CTree → α) (t : CTree) : List α :=
  visitInt f 0 t

mutual

/-- Models visit with traversal None, the postorder case (objcat.py lines
144-148): children left to right, then self. -/
def visitPost {α : Type} (f : CTree → α) : CTree → List α
  | .node cs => visitPostChildren f cs ++ [f (.node cs)]

/-- The loop of the postorder case, extending over the children. -/
def visitPostChildren {α : Type} (f : CTree → α) : List CTree → List α
  | [] => []
  | c :: rest => visitPost f c ++ visitPostChildren f rest

end

/-! ## Source interning (_SourceMeta.__call__, objcat.py lines 255-265)

Source objects are identified by allocation numbers so that Python object
identity is expressible.  The registry state is the singleton dictionary
_singdict from canonical string to object identity, together with the next
fresh allocation number.  Labels are represented by their canonical string
str(src). -/

structure SourceReg where
  singdict : String → Option Nat
  nextid : Nat

/-- Models one call of the Source constructor through _SourceMeta.__call__:
allocate a fresh object carrying the canonical string s, store it in
_singdict when the string is not interned yet, and return the dictionary
entry for s. -/
def sourceMetaCall (reg : SourceReg) (s : String) : Nat × SourceReg :=
  let obj := reg.nextid
  match reg.singdict s with
  | some o => (o, { reg with nextid := reg.nextid + 1 })
  | none =>
    (obj,
      { singdict := fun t => if t = s then some obj else reg.singdict t,
        nextid := reg.nextid + 1 })

/-- Run a sequence of Source constructions, keeping only the registry. -/
def runSourceCalls (reg : SourceReg) : List String → SourceReg
  | [] => reg
  | s :: rest => runSourceCalls (sourceMetaCall reg s).2 rest

/-! ## Field values and Fields

Payload values are modelled by a small Python value universe with a
matching type universe so that the isinstance check of Field._checkValue
is expressible.  A field value carries its payload and its source; the
source of an interned Source object is represented by its canonical
string, and a null source by none, so that the identity comparison
v.source is val.source of the source becomes equality on Option String. -/

/-- A payload value. -/
inductive PyV where
  | vint : Int → PyV
  | vstr : String → PyV
deriving DecidableEq, Repr

/-- A type constraint for a Field, checked by isinstance. -/
inductive PyType where
  | tint
  | tstr
deriving DecidableEq, Repr

/-- The isinstance check between a payload and a type constraint. -/
def isinst : PyV → PyType → Bool
  | .vint _, .tint => true
  | .vstr _, .tstr => true
  | _, _ => false

/-- A stored FieldValue: observed (ObservedValue) or derived
(DerivedValue, its payload standing for the value its evaluation yields). -/
inductive FV where
  | observed : PyV → Option String → FV
  | derived : PyV → Option String → FV
deriving DecidableEq, Repr

/-- The source slot of a field value. -/
def FV.source : FV → Option String
  | .observed _ s => s
  | .derived _ s => s

/-- The value property of a field value. -/
def FV.value : FV → PyV
  | .observed v _ => v
  | .derived v _ => v

/-- The state of a Field: the _vals sequence, the _currenti index and the
_type constraint. -/
structure FieldState where
  vals : List FV
  currenti : Nat
  ftype : Option PyType
deriving DecidableEq, Repr

/-- Models Field._checkValue (objcat.py lines 307-322): first the type
check against the constraint (raising TypeError), then, when checkdup is
set, the duplicate-source scan comparing source identities (raising
ValueError).  Returns the raised error, if any. -/
def checkValue (st : FieldState) (val : FV) (checkdup : Bool) : Option PyErr :=
  match st.ftype with
  | some t =>
    if isinst val.value t then
      if checkdup && st.vals.any (fun v => v.source == val.source) then
        some PyErr.valueError
      else none
    else some PyErr.typeError
  | none =>
    if checkdup && st.vals.any (fun v => v.source == val.source) then
      some PyErr.valueError
    else none

/-- Models the attribute access v.depends performed by the depends branch
of Field.__getitem__ (objcat.py line 344): no FieldValue class defines an
attribute named depends (DerivedValue declares the slot dependson
instead), so the lookup raises AttributeError for every value. -/
def FV.getattrDepends : FV → Except PyErr (Option Unit) :=
  fun _ => Except.error PyErr.attributeError

/-- The list comprehension of the depends branch, filtering the values on
v.depends is not None; the attribute access raises on the first element. -/
def dependsComp : List FV → Except PyErr (List FV)
  | [] => Except.ok []
  | v :: rest =>
    match v.getattrDepends with
    | Except.error e => Except.error e
    | Except.ok d =>
      if d.isSome then (dependsComp rest).map (fun l => v :: l)
      else dependsComp rest

/-- Models the depends branch of Field.__getitem__ (objcat.py lines
343-346) after the dependency number has been parsed from the key: index
the filtered comprehension, with an IndexError from the indexing caught
and re-raised as the dependent-value IndexError. -/
def fieldGetDepends (vals : List FV) (depnum : Int) : Except PyErr FV :=
  match dependsComp vals with
  | Except.error e => Except.error e
  | Except.ok l =>
    match pyGet l depnum with
    | some v => Except.ok v
    | none => Except.error PyErr.indexError

/-- Whether the pattern is a prefix of the character list. -/
def startsWithCh : List Char → List Char → Bool
  | [], _ => true
  | _ :: _, [] => false
  | p :: ps, c :: cs => p == c && startsWithCh ps cs

/-- The Python substring membership test pat in l on character lists. -/
def hasSubCh (pat : List Char) : List Char → Bool
  | [] => startsWithCh pat []
  | c :: rest => startsWithCh pat (c :: rest) || hasSubCh pat rest

/-- Strip the pattern as a prefix, returning the remaining suffix. -/
def stripPre : List Char → List Char → Option (List Char)
  | [], l => some l
  | _ :: _, [] => none
  | p :: ps, c :: cs => if p = c then stripPre ps cs else none

/-- Python str.replace with empty replacement: delete the non-overlapping
occurrences of the pattern left to right.  The recursion is fueled by the
length of the list, which suffices for any nonempty pattern. -/
def replaceDelFuel (pat : List Char) : Nat → List Char → List Char
  | 0, l => l
  | _ + 1, [] => []
  | fuel + 1, c :: rest =>
    match stripPre pat (c :: rest) with
    | some suffix => replaceDelFuel pat fuel suffix
    | none => c :: replaceDelFuel pat fuel rest

/-- Python str.strip character class: ASCII whitespace. -/
def isSpaceCh (c : Char) : Bool :=
  c == ' ' || c == '\t' || c == '\n' || c == '\r'

/-- Drop leading whitespace. -/
def dropLeading : List Char → List Char
  | [] => []
  | c :: rest => if isSpaceCh c then dropLeading rest else c :: rest

/-- Python str.strip on character lists. -/
def trimCh (l : List Char) : List Char :=
  (dropLeading (dropLeading l).reverse).reverse

/-- Digit-string accumulator for the Python int() parse. -/
def digitsToNatAux : Nat → List Char → Option Nat
  | acc, [] => some acc
  | acc, c :: rest =>
    if c.isDigit then digitsToNatAux (acc * 10 + (c.toNat - 48)) rest
    else none

/-- A nonempty digit string as a number. -/
def digitsToNat : List Char → Option Nat
  | [] => none
  | l => digitsToNatAux 0 l

/-- Python int() on a trimmed character list: optional sign, then digits;
none models the ValueError of a failed parse. -/
def parseIntCh : List Char → Option Int
  | '-' :: rest => (digitsToNat rest).map (fun n => -(n : Int))
  | '+' :: rest => (digitsToNat rest).map (fun n => (n : Int))
  | l => (digitsToNat l).map (fun n => (n : Int))

/-- The lowercased characters of a string (Python str.lower). -/
def pyLowerData (s : String) : List Char :=
  s.data.map Char.toLower

/-- The characters of the word depends. -/
def dependsChars : List Char := ['d', 'e', 'p', 'e', 'n', 'd', 's']

/-- The test whether the lowercased key contains the substring depends
(the Python membership test depends in key.lower()). -/
def isDependsKey (s : String) : Bool :=
  hasSubCh dependsChars (pyLowerData s)

/-- Models the parse of the dependency number (objcat.py lines 338-342):
delete every occurrence of depends from the lowercased key, strip it, take
0 when empty and otherwise parse an integer, a failed parse raising
ValueError from int(). -/
def parseDependsNum (s : String) : Option Int :=
  let low := pyLowerData s
  let depre := trimCh (replaceDelFuel dependsChars low.length low)
  if depre = [] then some 0 else parseIntCh depre

/-- A key for Field.__getitem__: an integer index or a string. -/
inductive FKey where
  | intKey : Int → FKey
  | strKey : String → FKey
deriving DecidableEq, Repr

/-- Models Field.__getitem__ (objcat.py lines 324-354) for integer and
string keys: a string containing depends goes through the depends branch,
any other string is looked up as an interned Source among the stored
sources, and an integer indexes the sequence directly (an out-of-range
index raising IndexError, which the source catches only for TypeError). -/
def fieldGetItem (st : FieldState) (key : FKey) : Except PyErr FV :=
  match key with
  | .strKey s =>
    if isDependsKey s then
      match parseDependsNum s with
      | none => Except.error PyErr.valueError
      | some n => fieldGetDepends st.vals n
    else
      match st.vals.find? (fun v => v.source == some s) with
      | some v => Except.ok v
      | none => Except.error PyErr.keyError
  | .intKey i =>
    match pyGet st.vals i with
    | some v => Except.ok v
    | none => Except.error PyErr.indexError

/-- The comparison key == len(vals) of Field.insert: true only for an
integer key equal to the length. -/
def keyEqLen (key : FKey) (n : Nat) : Bool :=
  match key with
  | .intKey i => i == (n : Int)
  | .strKey _ => false

/-- Models Field.insert (objcat.py lines 362-370): run _checkValue first
(raising before any mutation), then resolve the insertion position, insert
into _vals, and shift _currenti forward when it sits at or after the
insertion point and the sequence did not just become a singleton. -/
def fieldInsert (st : FieldState) (key : FKey) (val : FV) :
    Option PyErr × FieldState :=
  match checkValue st val true with
  | some e => (some e, st)
  | none =>
    let ires : Except PyErr Nat :=
      if keyEqLen key st.vals.length then Except.ok st.vals.length
      else
        match fieldGetItem st key with
        | Except.error e => Except.error e
        | Except.ok v => Except.ok (st.vals.indexOf v)
    match ires with
    | Except.error e => (some e, st)
    | Except.ok i =>
      let newvals := st.vals.insertIdx i val
      if st.currenti ≥ i && newvals.length != 1 then
        (none, { st with vals := newvals, currenti := st.currenti + 1 })
      else
        (none, { st with vals := newvals })

/-- Models Field.__delitem__ (objcat.py lines 360-361): the body reads the
attribute self.vals, but the Field slots are _name, _type, _vals and
_currenti and the class defines no attribute named vals (its property is
named values), so the attribute lookup raises AttributeError before the
key is even examined and nothing is mutated. -/
def fieldDelItem (st : FieldState) (_key : FKey) : Option PyErr × FieldState :=
  (some PyErr.attributeError, st)

/-! ## Derived values (DerivedValue.value, objcat.py lines 575-580)

The cache slot _val is initialized to Python None; the value property
recomputes whenever the slot holds None and stores the result of applying
the wrapped function to the current dependency values.  Python None is
modelled by none, so the wrapped function returns an Option. -/

/-- One call of the DerivedValue value property: depvals are the current
dependency values at call time, cache the _val slot before the call; the
result is the returned value paired with the _val slot after the call. -/
def dvValue {α V : Type} (f : α → Option V) (depvals : α) (cache : Option V) :
    Option V × Option V :=
  match cache with
  | some v => (some v, some v)
  | none => (f depvals, f depvals)

/-! ## Templated object nodes (CatalogObject, objcat.py lines 603-677)

The class template is the ordered list of field names that
inspect.getmembers enumerates on the class (getmembers sorts by name, both
at construction and in revert, so it is the same list at both places).
The node state keeps the _fieldnames list, the set of attribute names
currently bound to a Field instance on the node, and the _altered flag. -/

structure CatObjState where
  fieldnames : List String
  fieldattrs : List String
  altered : Bool
deriving DecidableEq, Repr

/-- Models CatalogObject.__init__ (objcat.py lines 615-627): every
template field is synthesized on the instance and appended to
_fieldnames, and _altered starts false. -/
def catObjNew (template : List String) : CatObjState :=
  { fieldnames := template, fieldattrs := template, altered := false }

/-- setattr of a Field attribute: binds the name, keeping one entry. -/
def addAttr (attrs : List String) (x : String) : List String :=
  if x ∈ attrs then attrs else attrs ++ [x]

/-- Models CatalogObject.addField (objcat.py lines 669-672) followed by
FieldNode.addField (lines 197-203): set _altered (before any check, as in
the source), then fail with ValueError when the name is already present,
otherwise bind the attribute and append the name. -/
def catAddField (st : CatObjState) (x : String) : Option PyErr × CatObjState :=
  let st1 := { st with altered := true }
  if x ∈ st1.fieldnames then (some PyErr.valueError, st1)
  else
    (none,
      { st1 with
        fieldattrs := addAttr st1.fieldattrs x,
        fieldnames := st1.fieldnames ++ [x] })

/-- Models CatalogObject.delField (objcat.py lines 674-677) followed by
FieldNode.delField (lines 205-213): set _altered, then remove the first
occurrence of the name from _fieldnames (KeyError when absent); the
attribute is then either set to None (template names, which are class
attributes) or deleted, so in both cases the name stops denoting a Field
on the node. -/
def catDelField (st : CatObjState) (x : String) : Option PyErr × CatObjState :=
  let st1 := { st with altered := true }
  if x ∈ st1.fieldnames then
    (none,
      { st1 with
        fieldnames := st1.fieldnames.erase x,
        fieldattrs := st1.fieldattrs.erase x })
  else (some PyErr.keyError, st1)

/-- Models CatalogObject.revert (objcat.py lines 640-667): every template
name not currently bound to a Field is recreated, every Field-bound name
outside the template is deleted, _fieldnames is rebuilt as the template
list and _altered is reset. -/
def catRevert (template : List String) (st : CatObjState) : CatObjState :=
  let attrs1 := template.foldl (fun acc k => addAttr acc k) st.fieldattrs
  { fieldnames := template,
    fieldattrs := attrs1.filter (fun k => k ∈ template),
    altered := false }

/-! ## Theorems -/

/-- C2: on children modelled as the list with entries 10, 20, 30, the call
of reorderChildren with the permutation 2,0,1 is claimed to change the
child list to 30, 10, 20; the source builds the permuted list newl but
never assigns it back to the _children slot, so the call succeeds and the
child list is unchanged.  The wrong-length and repeated-index calls raise
ValueError and also leave the child list unchanged, as the claim states. -/
theorem reorderChildren_drops_permutation :
    reorderChildrenSeq ([10, 20, 30] : List Nat) [2, 0, 1] = (none, [10, 20, 30]) ∧
    reorderChildrenSeq ([10, 20, 30] : List Nat) [0, 0, 1]
      = (some PyErr.valueError, [10, 20, 30]) ∧
    reorderChildrenSeq ([10, 20, 30] : List Nat) [0, 1]
      = (some PyErr.valueError, [10, 20, 30]) := by
  decide

/-- C3: on a root with a single leaf child, a preorder visit with the
node-count function as the callback yields the results 2, 1, 2 although the
subtree has only 2 nodes: the loop assigns the unrelated name doneroot, so
doroot stays True and the root is emitted a second time after the loop.
Likewise an integer traversal 1 on a root with two leaf children yields
1, 3, 1, 3 over a 3-node subtree, the root result 3 appearing twice. -/
theorem visit_preorder_duplicates_root :
    visitPre CTree.nnodes (CTree.node [CTree.node []]) = [2, 1, 2] ∧
    (CTree.node [CTree.node []]).nnodes = 2 ∧
    visitInt CTree.nnodes 1 (CTree.node [CTree.node [], CTree.node []])
      = [1, 3, 1, 3] ∧
    (CTree.node [CTree.node [], CTree.node []]).nnodes = 3 := by
  refine ⟨?_, ?_, ?_, ?_⟩ <;>
    simp [visitPre, visitInt, visitIntChildren, CTree.nnodes, nnodesSum]

/-- The derived function of the C4 counterexample: it returns Python None
exactly when its dependency reads 0. -/
def noneAtZero : Int → Option Int := fun d => if d = 0 then none else some d

/-- C4 counterexample: a DerivedValue whose function returns Python None is
re-evaluated on every read, because the cache slot _val still holds None.
With the dependency reading 0 at the first call and 1 at the second, the
second call does not return the result cached by the first call: the two
calls disagree, refuting the claim that the second call returns the cached
result without re-evaluating the function. -/
theorem dvValue_recomputes_on_none :
    (dvValue noneAtZero 1 (dvValue noneAtZero 0 none).2).1
      ≠ (dvValue noneAtZero 0 none).1 := by
  decide

/-- C4 amended: for every DerivedValue whose function yields a non-None
result, the first read computes and caches the result and every later read
returns the cached result regardless of the dependency values at that
time, so the function is evaluated at most once. -/
theorem dvValue_cached {α V : Type} (f : α → Option V) (d1 : α) (v : V)
    (h : (dvValue f d1 none).1 = some v) (d2 : α) :
    (dvValue f d2 (dvValue f d1 none).2).1 = some v ∧
    (dvValue f d2 (dvValue f d1 none).2).2 = some v := by
  have h1 : f d1 = some v := h
  have h2 : (dvValue f d1 none).2 = f d1 := rfl
  rw [h2, h1]
  exact ⟨rfl, rfl⟩

/-- Witness for the amended C4 theorem at the identity-like function on
integers with dependency value 5 at the first call and 7 at the second. -/
theorem dvValue_cached_witness :
    (dvValue (fun d : Int => some d) 7 (dvValue (fun d : Int => some d) 5 none).2).1
      = some 5 ∧
    (dvValue (fun d : Int => some d) 7 (dvValue (fun d : Int => some d) 5 none).2).2
      = some 5 :=
  dvValue_cached (fun d : Int => some d) 5 5 (by decide) 7

/-- C7: looking up the key depends (and the key depends0) on a Field with
one stored value raises AttributeError: the filtering comprehension reads
the attribute v.depends, which no FieldValue class defines (the DerivedValue
slot is named dependson), so the lookup fails before any dependent value can
be returned; only on an empty Field does the claimed IndexError appear. -/
theorem fieldGetItem_depends_attribute_error :
    fieldGetItem
        { vals := [FV.observed (PyV.vint 1) (some "NED")], currenti := 0,
          ftype := none }
        (FKey.strKey "depends") = Except.error PyErr.attributeError ∧
    fieldGetItem
        { vals := [FV.derived (PyV.vint 2) none], currenti := 0, ftype := none }
        (FKey.strKey "depends0") = Except.error PyErr.attributeError ∧
    fieldGetItem { vals := [], currenti := 0, ftype := none }
        (FKey.strKey "depends") = Except.error PyErr.indexError := by
  refine ⟨?_, ?_, ?_⟩ <;> rfl

/-- C8: removing an entry from a Field raises AttributeError for every
state and key: the body of Field.__delitem__ reads self.vals, an attribute
the Field class does not define (the slot is _vals), so the deletion fails
before the key is examined and the stored sequence is unchanged, here
evaluated on a Field holding one value with the key 0. -/
theorem fieldDelItem_attribute_error :
    fieldDelItem
        { vals := [FV.observed (PyV.vint 5) (some "NED")], currenti := 0,
          ftype := none }
        (FKey.intKey 0)
      = (some PyErr.attributeError,
          { vals := [FV.observed (PyV.vint 5) (some "NED")], currenti := 0,
            ftype := none }) := by
  rfl

/-- C9: on a node templated by any field-name list, adding a field X not in
the template, removing it again and reverting restores the field-name list
to exactly the template (getmembers enumerates the class fields in the same
order at construction and in revert), both structural calls succeed, and
the altered flag is false after revert. -/
theorem catObj_revert_roundtrip (template : List String) (x : String)
    (hx : x ∉ template) :
    (catAddField (catObjNew template) x).1 = none ∧
    (catDelField (catAddField (catObjNew template) x).2 x).1 = none ∧
    (catRevert template
        (catDelField (catAddField (catObjNew template) x).2 x).2).fieldnames
      = template ∧
    (catRevert template
        (catDelField (catAddField (catObjNew template) x).2 x).2).altered
      = false := by
  refine ⟨?_, ?_, rfl, rfl⟩
  · simp [catAddField, catObjNew, hx]
  · simp [catDelField, catAddField, catObjNew, hx, addAttr]

/-- Witness for C9 at the template of the astronomical-object class (the
names loc and name, in getmembers order) and the extra field named z. -/
theorem catObj_revert_roundtrip_witness :
    (catAddField (catObjNew ["loc", "name"]) "z").1 = none ∧
    (catDelField (catAddField (catObjNew ["loc", "name"]) "z").2 "z").1 = none ∧
    (catRevert ["loc", "name"]
        (catDelField (catAddField (catObjNew ["loc", "name"]) "z").2 "z").2).fieldnames
      = ["loc", "name"] ∧
    (catRevert ["loc", "name"]
        (catDelField (catAddField (catObjNew ["loc", "name"]) "z").2 "z").2).altered
      = false :=
  catObj_revert_roundtrip ["loc", "name"] "z" (by decide)

/-- A Field with an integer type constraint holding one observed value
with the interned source NED, used for the C5 statements. -/
def stIntNed : FieldState :=
  { vals := [FV.observed (PyV.vint 5) (some "NED")], currenti := 0,
    ftype := some PyType.tint }

/-- C5 counterexample: on a Field with an integer type constraint holding
an observed value with source NED, inserting a string-valued second value
with the same source NED fails with TypeError, not with the claimed
duplicate-source ValueError, because _checkValue checks the type constraint
before scanning for a duplicate source.  The sequence is still unchanged. -/
theorem fieldInsert_type_checked_before_dup :
    fieldInsert stIntNed (FKey.intKey 0) (FV.observed (PyV.vstr "M31") (some "NED"))
      = (some PyErr.typeError, stIntNed) ∧
    PyErr.typeError ≠ PyErr.valueError := by
  decide

/-- C5 amended: for every Field holding a value whose source is identical
to the interned source of the inserted value, and every insertion key, inserting
the new value fails with the duplicate-source ValueError and leaves the
stored sequence unchanged, provided the new value satisfies the type
constraint of the Field (an ill-typed value fails with TypeError instead, likewise
without mutating). -/
theorem fieldInsert_duplicate_source (st : FieldState) (key : FKey) (val : FV)
    (ht : (match st.ftype with
           | some t => isinst val.value t
           | none => true) = true)
    (hd : st.vals.any (fun v => v.source == val.source) = true) :
    fieldInsert st key val = (some PyErr.valueError, st) := by
  have hc : checkValue st val true = some PyErr.valueError := by
    unfold checkValue
    cases h : st.ftype with
    | none => simp [hd]
    | some t =>
      rw [h] at ht
      simp at ht
      simp [ht, hd]
  unfold fieldInsert
  rw [hc]

/-- Witness for the amended C5 theorem: a well-typed second observed value
with the already-present source NED is rejected with ValueError and the
Field state is unchanged. -/
theorem fieldInsert_duplicate_source_witness :
    fieldInsert stIntNed (FKey.intKey 0) (FV.observed (PyV.vint 6) (some "NED"))
      = (some PyErr.valueError, stIntNed) :=
  fieldInsert_duplicate_source stIntNed (FKey.intKey 0)
    (FV.observed (PyV.vint 6) (some "NED")) (by decide) (by decide)

/-- A Source construction stores its canonical string in the singleton
dictionary, mapped to the returned identity. -/
theorem sourceMetaCall_interns (reg : SourceReg) (s : String) :
    ((sourceMetaCall reg s).2).singdict s = some (sourceMetaCall reg s).1 := by
  unfold sourceMetaCall
  cases h : reg.singdict s with
  | some o => simpa using h
  | none => simp

/-- A Source construction never overwrites an existing dictionary entry. -/
theorem sourceMetaCall_preserves (reg : SourceReg) (s t : String) (i : Nat)
    (h : reg.singdict s = some i) :
    ((sourceMetaCall reg t).2).singdict s = some i := by
  unfold sourceMetaCall
  cases ht : reg.singdict t with
  | some o => simpa using h
  | none =>
    by_cases hst : s = t
    · subst hst
      rw [h] at ht
      cases ht
    · simpa [hst] using h

/-- Dictionary entries survive any sequence of Source constructions. -/
theorem runSourceCalls_preserves (ops : List String) (reg : SourceReg)
    (s : String) (i : Nat) (h : reg.singdict s = some i) :
    (runSourceCalls reg ops).singdict s = some i := by
  induction ops generalizing reg with
  | nil => simpa [runSourceCalls] using h
  | cons t rest ih =>
    rw [runSourceCalls]
    exact ih _ (sourceMetaCall_preserves reg s t i h)

/-- A Source construction on an interned string returns the stored
identity. -/
theorem sourceMetaCall_of_interned (reg : SourceReg) (s : String) (i : Nat)
    (h : reg.singdict s = some i) : (sourceMetaCall reg s).1 = i := by
  unfold sourceMetaCall
  rw [h]

/-- C6: constructing a Source from a canonical string, then constructing
Sources from arbitrary further labels, and finally constructing a Source
from the same canonical string again yields the identical object as the
first construction: the metaclass call interns the first instance in the
singleton dictionary and every later call with an equal canonical string
returns that stored instance. -/
theorem source_interning_idempotent (reg : SourceReg) (s : String)
    (ops : List String) :
    (sourceMetaCall (runSourceCalls (sourceMetaCall reg s).2 ops) s).1
      = (sourceMetaCall reg s).1 :=
  sourceMetaCall_of_interned _ s _
    (runSourceCalls_preserves ops (sourceMetaCall reg s).2 s _
      (sourceMetaCall_interns reg s))

/-- If the ancestor walk from b terminates with chain l and a occurs in l,
then the cycle check started at b with source a raises CycleError. -/
theorem cycleCheck_of_mem_chain (st : TreeState) (a : Nat) :
    ∀ (fuel b : Nat) (l : List Nat), chainUp st fuel b = some l → a ∈ l →
      cycleCheck st a b fuel = some (some PyErr.cycleError) := by
  intro fuel
  induction fuel with
  | zero =>
    intro b l h hm
    simp [chainUp] at h
  | succ n ih =>
    intro b l h hm
    rw [chainUp] at h
    by_cases hab : a = b
    · subst hab
      rw [cycleCheck]
      simp
    · cases hp : st.parent b with
      | none =>
        rw [hp] at h
        simp at h
        rw [← h] at hm
        simp at hm
        exact absurd hm hab
      | some p =>
        rw [hp] at h
        rw [Option.map_eq_some'] at h
        obtain ⟨l', hl', rfl⟩ := h
        have hm' : a ∈ b :: l' := hm
        rcases List.mem_cons.mp hm' with h1 | h2
        · exact absurd h1 hab
        · rw [cycleCheck, if_neg hab, hp]
          exact ih p l' hl' h2

/-- C1: for every tree state and all nodes a and b such that a occurs in
the terminating ancestor walk from b (that is, b is a itself or one of its
descendants), setting the parent of a to b returns CycleError and the
state is returned exactly as it was: the cycle check runs before the
child-list append and the parent update, so nothing is mutated. -/
theorem setParent_cycle_detected (st : TreeState) (a b : Nat) (fuel : Nat)
    (l : List Nat) (hc : chainUp st fuel b = some l) (hm : a ∈ l) :
    setParent st a (some b) fuel = some (some PyErr.cycleError, st) := by
  simp only [setParent, cycleCheck_of_mem_chain st a fuel b l hc hm]

/-- The two-node state used by the C1 witness: node 1 is a child of node
0. -/
def stParent01 : TreeState :=
  { parent := fun n => if n = 1 then some 0 else none,
    children := fun n => if n = 0 then [1] else [] }

/-- Witness for C1: attaching node 0 below its own child 1 raises
CycleError and returns the unchanged state. -/
theorem setParent_cycle_detected_witness :
    setParent stParent01 0 (some 1) 2 = some (some PyErr.cycleError, stParent01) :=
  setParent_cycle_detected stParent01 0 1 2 [1, 0] (by rfl) (by decide)

/-- A node with no stored parent occurs in no child list. -/
theorem not_mem_children_of_parent_none (st : TreeState) (a : Nat)
    (hwf : WFTree st) (hp : st.parent a = none) (q : Nat) :
    a ∉ st.children q := by
  intro hmem
  have := hwf.2 q a hmem
  rw [hp] at this
  cases this

/-- A node whose stored parent is p occurs in no child list other than
that of p. -/
theorem not_mem_children_of_parent_ne (st : TreeState) (a p : Nat)
    (hwf : WFTree st) (hp : st.parent a = some p) (q : Nat) (hq : q ≠ p) :
    a ∉ st.children q := by
  intro hmem
  have := hwf.2 q a hmem
  rw [hp] at this
  exact hq (Option.some.inj this).symm

/-- A node whose stored parent is p is a member of the child list of p. -/
theorem mem_children_of_parent (st : TreeState) (a p : Nat)
    (hwf : WFTree st) (hp : st.parent a = some p) :
    a ∈ st.children p :=
  List.count_pos_iff.mp (by rw [hwf.1 a p hp]; exact Nat.one_pos)

/-- Preservation case: detaching a parentless node (setting its parent
slot to none changes no link). -/
theorem wfTree_none_none (st : TreeState) (a : Nat) (hwf : WFTree st)
    (hp : st.parent a = none) :
    WFTree (setParentSlot st a none) := by
  obtain ⟨hwf1, hwf2⟩ := hwf
  constructor
  · intro n q hn
    simp only [setParentSlot] at hn ⊢
    by_cases hna : n = a
    · rw [if_pos hna] at hn
      cases hn
    · rw [if_neg hna] at hn
      exact hwf1 n q hn
  · intro q n hn
    simp only [setParentSlot] at hn ⊢
    by_cases hna : n = a
    · subst hna
      exact absurd hn (not_mem_children_of_parent_none st n ⟨hwf1, hwf2⟩ hp q)
    · rw [if_neg hna]
      exact hwf2 q n hn

/-- Preservation case: detaching a node from its stored parent p (erase
from the child list of p, then clear the parent slot). -/
theorem wfTree_none_some (st : TreeState) (a p : Nat) (hwf : WFTree st)
    (hp : st.parent a = some p) :
    WFTree (setParentSlot (setChildList st p ((st.children p).erase a)) a none) := by
  obtain ⟨hwf1, hwf2⟩ := hwf
  constructor
  · intro n q hn
    simp only [setParentSlot, setChildList] at hn ⊢
    by_cases hna : n = a
    · rw [if_pos hna] at hn
      cases hn
    · rw [if_neg hna] at hn
      by_cases hqp : q = p
      · subst hqp
        rw [if_pos rfl, List.count_erase_of_ne hna]
        exact hwf1 n q hn
      · rw [if_neg hqp]
        exact hwf1 n q hn
  · intro q n hn
    simp only [setParentSlot, setChildList] at hn ⊢
    by_cases hna : n = a
    · subst hna
      by_cases hqp : q = p
      · subst hqp
        rw [if_pos rfl] at hn
        have hno : n ∉ (st.children q).erase n :=
          List.count_eq_zero.mp (by rw [List.count_erase_self, hwf1 n q hp])
        exact absurd hn hno
      · rw [if_neg hqp] at hn
        exact absurd hn
          (not_mem_children_of_parent_ne st n p ⟨hwf1, hwf2⟩ hp q hqp)
    · rw [if_neg hna]
      by_cases hqp : q = p
      · subst hqp
        rw [if_pos rfl] at hn
        exact hwf2 q n (List.mem_of_mem_erase hn)
      · rw [if_neg hqp] at hn
        exact hwf2 q n hn

/-- Preservation case: attaching a parentless node a below b (append to
the child list of b, then store b as the parent of a). -/
theorem wfTree_some_none (st : TreeState) (a b : Nat) (hwf : WFTree st)
    (hp : st.parent a = none) :
    WFTree (setParentSlot (setChildList st b (st.children b ++ [a])) a (some b)) := by
  obtain ⟨hwf1, hwf2⟩ := hwf
  constructor
  · intro n q hn
    simp only [setParentSlot, setChildList] at hn ⊢
    by_cases hna : n = a
    · subst hna
      rw [if_pos rfl] at hn
      cases hn
      rw [if_pos rfl, List.count_append]
      have hnot : n ∉ st.children b :=
        not_mem_children_of_parent_none st n ⟨hwf1, hwf2⟩ hp b
      rw [List.count_eq_zero.mpr hnot]
      simp
    · rw [if_neg hna] at hn
      by_cases hqb : q = b
      · subst hqb
        rw [if_pos rfl, List.count_append]
        have : List.count n [a] = 0 := by
          rw [List.count_eq_zero]
          simp [hna]
        rw [this, hwf1 n q hn]
      · rw [if_neg hqb]
        exact hwf1 n q hn
  · intro q n hn
    simp only [setParentSlot, setChildList] at hn ⊢
    by_cases hna : n = a
    · subst hna
      rw [if_pos rfl]
      by_cases hqb : q = b
      · rw [hqb]
      · rw [if_neg hqb] at hn
        exact absurd hn (not_mem_children_of_parent_none st n ⟨hwf1, hwf2⟩ hp q)
    · rw [if_neg hna]
      by_cases hqb : q = b
      · subst hqb
        rw [if_pos rfl] at hn
        rcases List.mem_append.mp hn with h1 | h2
        · exact hwf2 q n h1
        · simp at h2
          exact absurd h2 hna
      · rw [if_neg hqb] at hn
        exact hwf2 q n hn

/-- Preservation case: moving node a from its stored parent p below b
(append a to the child list of b, erase the first occurrence of a from the
updated child list of p, then store b as the parent of a).  When p and b
coincide the net effect moves a to the end of the list instead of
duplicating it. -/
theorem wfTree_some_some (st : TreeState) (a b p : Nat) (hwf : WFTree st)
    (hp : st.parent a = some p) :
    WFTree (setParentSlot
      (setChildList (setChildList st b (st.children b ++ [a])) p
        (((setChildList st b (st.children b ++ [a])).children p).erase a))
      a (some b)) := by
  obtain ⟨hwf1, hwf2⟩ := hwf
  constructor
  · intro n q hn
    simp only [setParentSlot, setChildList] at hn ⊢
    by_cases hna : n = a
    · subst hna
      rw [if_pos rfl] at hn
      cases hn
      by_cases hbp : b = p
      · rw [if_pos hbp, if_pos hbp.symm]
        have hp' : st.parent n = some b := by rw [hp, hbp]
        have hmem : n ∈ st.children b :=
          mem_children_of_parent st n b ⟨hwf1, hwf2⟩ hp'
        rw [List.erase_append_left _ hmem, List.count_append,
          List.count_erase_self, hwf1 n b hp']
        simp
      · rw [if_neg hbp, if_pos rfl, List.count_append]
        have hnot : n ∉ st.children b :=
          not_mem_children_of_parent_ne st n p ⟨hwf1, hwf2⟩ hp b hbp
        rw [List.count_eq_zero.mpr hnot]
        simp
    · rw [if_neg hna] at hn
      by_cases hqp : q = p
      · rw [hqp] at hn ⊢
        rw [if_pos rfl, List.count_erase_of_ne hna]
        by_cases hpb : p = b
        · rw [if_pos hpb, List.count_append]
          have h0 : List.count n [a] = 0 := by
            rw [List.count_eq_zero]
            simp [hna]
          rw [h0]
          have hn' : st.parent n = some b := by rw [hn, hpb]
          rw [hwf1 n b hn']
        · rw [if_neg hpb]
          exact hwf1 n p hn
      · rw [if_neg hqp]
        by_cases hqb : q = b
        · rw [hqb] at hn ⊢
          rw [if_pos rfl, List.count_append]
          have h0 : List.count n [a] = 0 := by
            rw [List.count_eq_zero]
            simp [hna]
          rw [h0, hwf1 n b hn]
        · rw [if_neg hqb]
          exact hwf1 n q hn
  · intro q n hn
    simp only [setParentSlot, setChildList] at hn ⊢
    by_cases hna : n = a
    · subst hna
      rw [if_pos rfl]
      by_cases hqp : q = p
      · rw [hqp] at hn ⊢
        rw [if_pos rfl] at hn
        by_cases hpb : p = b
        · rw [hpb]
        · rw [if_neg hpb] at hn
          have hno : n ∉ (st.children p).erase n :=
            List.count_eq_zero.mp (by rw [List.count_erase_self, hwf1 n p hp])
          exact absurd hn hno
      · rw [if_neg hqp] at hn
        by_cases hqb : q = b
        · rw [hqb]
        · rw [if_neg hqb] at hn
          exact absurd hn
            (not_mem_children_of_parent_ne st n p ⟨hwf1, hwf2⟩ hp q hqp)
    · rw [if_neg hna]
      by_cases hqp : q = p
      · rw [hqp] at hn ⊢
        rw [if_pos rfl] at hn
        have hn' := List.mem_of_mem_erase hn
        by_cases hpb : p = b
        · rw [if_pos hpb] at hn'
          rcases List.mem_append.mp hn' with h1 | h2
          · have hb := hwf2 b n h1
            rw [hb, hpb]
          · simp at h2
            exact absurd h2 hna
        · rw [if_neg hpb] at hn'
          exact hwf2 p n hn'
      · rw [if_neg hqp] at hn
        by_cases hqb : q = b
        · rw [hqb] at hn ⊢
          rw [if_pos rfl] at hn
          rcases List.mem_append.mp hn with h1 | h2
          · exact hwf2 b n h1
          · simp at h2
            exact absurd h2 hna
        · rw [if_neg hqb] at hn
          exact hwf2 q n hn

/-- The value of setParentTail when the node has a stored parent. -/
theorem setParentTail_some (st : TreeState) (a : Nat) (val : Option Nat)
    (p : Nat) (hp : st.parent a = some p) :
    setParentTail st a val =
      if a ∈ st.children p then
        (none, setParentSlot (setChildList st p ((st.children p).erase a)) a val)
      else (some PyErr.valueError, st) := by
  unfold setParentTail
  rw [hp]

/-- The value of setParentTail when the node has no stored parent. -/
theorem setParentTail_none (st : TreeState) (a : Nat) (val : Option Nat)
    (hp : st.parent a = none) :
    setParentTail st a val = (none, setParentSlot st a val) := by
  unfold setParentTail
  rw [hp]

/-- C10: from every state satisfying the parent/child symmetry invariant,
every successful setParent call (with a null or non-null new parent)
yields a state that again satisfies it: every node with a non-null stored
parent occurs exactly once in the child list of that parent (in particular
re-setting the parent to the current parent moves the node to the end of
the list rather than duplicating it), and every member of any child list
has the owner of the list as its stored parent. -/
theorem setParent_preserves_links (st st' : TreeState) (a : Nat)
    (val : Option Nat) (fuel : Nat) (hwf : WFTree st)
    (h : setParent st a val fuel = some (none, st')) : WFTree st' := by
  cases val with
  | none =>
    simp only [setParent] at h
    have h' := Option.some.inj h
    cases hp : st.parent a with
    | none =>
      rw [setParentTail_none st a none hp] at h'
      have h2 := congrArg Prod.snd h'
      simp at h2
      rw [← h2]
      exact wfTree_none_none st a hwf hp
    | some p =>
      rw [setParentTail_some st a none p hp] at h'
      by_cases hm : a ∈ st.children p
      · rw [if_pos hm] at h'
        have h2 := congrArg Prod.snd h'
        simp at h2
        rw [← h2]
        exact wfTree_none_some st a p hwf hp
      · rw [if_neg hm] at h'
        have h1 := congrArg Prod.fst h'
        simp at h1
  | some b =>
    simp only [setParent] at h
    cases hcc : cycleCheck st a b fuel with
    | none =>
      rw [hcc] at h
      simp at h
    | some o =>
      cases o with
      | some e =>
        rw [hcc] at h
        simp at h
      | none =>
        rw [hcc] at h
        have h' := Option.some.inj h
        cases hp : st.parent a with
        | none =>
          rw [setParentTail_none (setChildList st b (st.children b ++ [a])) a
            (some b)
            (show (setChildList st b (st.children b ++ [a])).parent a = none
              from hp)] at h'
          have h2 := congrArg Prod.snd h'
          simp at h2
          rw [← h2]
          exact wfTree_some_none st a b hwf hp
        | some p =>
          rw [setParentTail_some (setChildList st b (st.children b ++ [a])) a
            (some b) p
            (show (setChildList st b (st.children b ++ [a])).parent a = some p
              from hp)] at h'
          by_cases hm : a ∈ (setChildList st b (st.children b ++ [a])).children p
          · rw [if_pos hm] at h'
            have h2 := congrArg Prod.snd h'
            simp at h2
            rw [← h2]
            exact wfTree_some_some st a b p hwf hp
          · rw [if_neg hm] at h'
            have h1 := congrArg Prod.fst h'
            simp at h1

/-- The empty tree state used by the C10 witness. -/
def stEmpty : TreeState := { parent := fun _ => none, children := fun _ => [] }

/-- The state reached from the empty state by attaching node 0 below node
1. -/
def stAttached : TreeState :=
  { parent := fun m => if m = 0 then some 1 else none,
    children := fun m => if m = 1 then [0] else [] }

/-- The empty tree state satisfies the symmetry invariant. -/
theorem stEmpty_wf : WFTree stEmpty := by
  constructor
  · intro n p h
    simp [stEmpty] at h
  · intro p n h
    simp [stEmpty] at h

/-- Witness for C10: attaching node 0 below node 1 in the empty state
succeeds and the resulting state satisfies the symmetry invariant. -/
theorem setParent_preserves_links_witness : WFTree stAttached :=
  setParent_preserves_links stEmpty stAttached 0 (some 1) 2 stEmpty_wf (by rfl)

end Objcat
